import Mathlib

/-!
Verification of the overflow web component (src/src/item-overflow-v2.ts).

The component keeps an item list, measures each item's rendered width in a
hidden container, and shows the longest prefix of items whose cumulative
width fits the parent container's width, recomputing on debounced resize.

Shallow embedding: widths and container widths are rationals (TypeScript
numbers), the fit loop of computeVisibleForCurrentWidth is a recursive
function, the component lifecycle (firstUpdated / updated / the resumed
measureAllItems continuation / ResizeObserver callbacks / setTimeout
callbacks / disconnectedCallback) is a step function over an explicit
state record driven by an event list, and the 50 ms debounce of
onContainerResize is a separate timed model over notification timestamps.
-/

namespace OverflowWc

/-- JavaScript truthiness coercion applied to a plain number:
the expression a number-typed value flows through in source patterns such
as a falsy-to-zero coercion. A zero stays zero and any other number is
itself, so on genuine numbers this is the identity. -/
def orZero (q : ℚ) : ℚ := if q = 0 then 0 else q

/-- Reading the container width in computeVisibleForCurrentWidth:
optional chaining on the parent element yields no value when the element
has no parent, and the falsy-to-zero coercion turns that (and a zero
clientWidth) into 0. -/
def readContainerWidth : Option ℚ → ℚ
  | none => 0
  | some c => orZero c

/-- The loop of computeVisibleForCurrentWidth (source lines 105-123):
walk the measured widths left to right with a running sum; an item is
admitted when the sum plus its (falsy-coerced) width still fits the
container width W, and the loop breaks at the first item that does not
fit. The result is the number of admitted items. -/
def fitLoop (W : ℚ) : List ℚ → ℚ → ℕ
  | [], _ => 0
  | wv :: rest, sum =>
    if sum + orZero wv ≤ W then fitLoop W rest (sum + orZero wv) + 1 else 0

/-- computeVisibleForCurrentWidth as a function of the parent element's
clientWidth (none when the element has no parent) and the measuredWidths
array: the count the method stores into visibleCount. -/
def computeVisibleForCurrentWidth (parent : Option ℚ) (ws : List ℚ) : ℕ :=
  fitLoop (readContainerWidth parent) ws 0

theorem orZero_eq (q : ℚ) : orZero q = q := by
  unfold orZero
  split
  · rename_i h
    exact h.symm
  · rfl

theorem readContainerWidth_some (c : ℚ) : readContainerWidth (some c) = c := by
  simp [readContainerWidth, orZero_eq]

theorem fitLoop_nil (W sum : ℚ) : fitLoop W [] sum = 0 := rfl

theorem fitLoop_cons (W w sum : ℚ) (rest : List ℚ) :
    fitLoop W (w :: rest) sum =
      if sum + w ≤ W then fitLoop W rest (sum + w) + 1 else 0 := by
  simp [fitLoop, orZero_eq]

/-- The count returned by the fit loop never exceeds the number of
measured widths. -/
theorem fitLoop_le_length (W : ℚ) (ws : List ℚ) (sum : ℚ) :
    fitLoop W ws sum ≤ ws.length := by
  induction ws generalizing sum with
  | nil => simp [fitLoop_nil]
  | cons w rest ih =>
    rw [fitLoop_cons]
    split
    · simpa using Nat.succ_le_succ (ih (sum + w))
    · exact Nat.zero_le _

/-- The admitted prefix indeed fits: starting from a running sum that
still fits, the widths the loop admits keep the total within W. -/
theorem fitLoop_take_sum_le (W : ℚ) (ws : List ℚ) (sum : ℚ) (hsum : sum ≤ W) :
    sum + (ws.take (fitLoop W ws sum)).sum ≤ W := by
  induction ws generalizing sum with
  | nil => simpa [fitLoop_nil]
  | cons w rest ih =>
    rw [fitLoop_cons]
    split
    · rename_i h
      have := ih (sum + w) h
      simpa [add_assoc] using this
    · simpa [fitLoop_nil]

/-- Maximality: when all widths are non-negative, any prefix length whose
widths fit on top of the running sum is at most the loop's count. -/
theorem fitLoop_ge_of_take_le (W : ℚ) (ws : List ℚ) (sum : ℚ) (j : ℕ)
    (hnn : ∀ w ∈ ws, 0 ≤ w) (hj : j ≤ ws.length)
    (hfit : sum + (ws.take j).sum ≤ W) :
    j ≤ fitLoop W ws sum := by
  induction ws generalizing sum j with
  | nil =>
    have : j = 0 := by simpa using hj
    simp [this]
  | cons w rest ih =>
    cases j with
    | zero => exact Nat.zero_le _
    | succ j =>
      have hwmem : (0 : ℚ) ≤ w := hnn w (List.mem_cons_self w rest)
      have hrest : ∀ x ∈ rest, (0 : ℚ) ≤ x := fun x hx =>
        hnn x (List.mem_cons_of_mem w hx)
      have htail : (0 : ℚ) ≤ (rest.take j).sum :=
        List.sum_nonneg fun x hx => hrest x (List.mem_of_mem_take hx)
      have hsw : sum + w ≤ W := by
        have : sum + w + (rest.take j).sum ≤ W := by
          simpa [add_assoc] using hfit
        linarith
      rw [fitLoop_cons, if_pos hsw]
      have : sum + w + (rest.take j).sum ≤ W := by
        simpa [add_assoc] using hfit
      exact Nat.succ_le_succ (ih (sum + w) j hrest (by simpa using hj) this)

/-- Monotonicity of the fit loop in the container width, for a fixed
running sum and fixed widths. -/
theorem fitLoop_mono (W1 W2 : ℚ) (h : W1 ≤ W2) (ws : List ℚ) (sum : ℚ) :
    fitLoop W1 ws sum ≤ fitLoop W2 ws sum := by
  induction ws generalizing sum with
  | nil => simp [fitLoop_nil]
  | cons w rest ih =>
    rw [fitLoop_cons, fitLoop_cons]
    by_cases h1 : sum + w ≤ W1
    · rw [if_pos h1, if_pos (h1.trans h)]
      exact Nat.succ_le_succ (ih (sum + w))
    · rw [if_neg h1]
      exact Nat.zero_le _

/-- C1: for non-negative widths and container width W ≥ 0, the fit
computation returns the unique largest k with the cumulative width of the
first k items at most W: the returned count is within bounds, its prefix
fits, and every fitting prefix length is at most the returned count
(which pins the count down uniquely as the greatest fitting length). -/
theorem fit_visibleCount_largest (ws : List ℚ) (W : ℚ) (hW : 0 ≤ W)
    (hnn : ∀ w ∈ ws, 0 ≤ w) :
    computeVisibleForCurrentWidth (some W) ws ≤ ws.length ∧
    (ws.take (computeVisibleForCurrentWidth (some W) ws)).sum ≤ W ∧
    ∀ j, j ≤ ws.length → (ws.take j).sum ≤ W →
      j ≤ computeVisibleForCurrentWidth (some W) ws := by
  unfold computeVisibleForCurrentWidth
  rw [readContainerWidth_some]
  refine ⟨fitLoop_le_length W ws 0, ?_, ?_⟩
  · have := fitLoop_take_sum_le W ws 0 hW
    simpa using this
  · intro j hj hfit
    exact fitLoop_ge_of_take_le W ws 0 j hnn hj (by simpa using hfit)

theorem fit_visibleCount_largest_witness :
    (0 : ℚ) ≤ 90 ∧ (∀ w ∈ ([50, 30, 40] : List ℚ), 0 ≤ w) ∧
    (computeVisibleForCurrentWidth (some 90) [50, 30, 40] ≤
        ([50, 30, 40] : List ℚ).length ∧
      (([50, 30, 40] : List ℚ).take
          (computeVisibleForCurrentWidth (some 90) [50, 30, 40])).sum ≤ 90 ∧
      ∀ j, j ≤ ([50, 30, 40] : List ℚ).length →
        (([50, 30, 40] : List ℚ).take j).sum ≤ 90 →
        j ≤ computeVisibleForCurrentWidth (some 90) [50, 30, 40]) :=
  ⟨by norm_num, by decide,
    fit_visibleCount_largest [50, 30, 40] 90 (by norm_num) (by decide)⟩

/-- C2 counterexample: a zero-width item is admitted even at container
width 0, because 0 + 0 ≤ 0, so the computed VisibleCount is 1 and not 0. -/
theorem fit_zero_width_counterexample :
    computeVisibleForCurrentWidth (some 0) [0] = 1 := by
  simp [computeVisibleForCurrentWidth, readContainerWidth, fitLoop, orZero]

/-- C2 amended: an empty widths sequence yields VisibleCount 0; an
unavailable container width reads as 0; and when the container width
reads as 0 and every width is strictly positive, VisibleCount is 0
(zero-width items, however, are still admitted at width 0). -/
theorem fit_zero_container_amended (parent : Option ℚ) (ws : List ℚ) :
    (ws = [] → computeVisibleForCurrentWidth parent ws = 0) ∧
    readContainerWidth none = 0 ∧
    (readContainerWidth parent = 0 → (∀ w ∈ ws, 0 < w) →
      computeVisibleForCurrentWidth parent ws = 0) := by
  refine ⟨?_, rfl, ?_⟩
  · intro h
    simp [h, computeVisibleForCurrentWidth, fitLoop_nil]
  · intro hW hpos
    unfold computeVisibleForCurrentWidth
    rw [hW]
    cases ws with
    | nil => rfl
    | cons w rest =>
      rw [fitLoop_cons]
      have : ¬ (0 + w ≤ (0 : ℚ)) := by
        have := hpos w (List.mem_cons_self w rest)
        intro hle
        rw [zero_add] at hle
        exact absurd (lt_of_lt_of_le this hle) (lt_irrefl 0)
      rw [if_neg this]

theorem fit_zero_container_amended_witness :
    ([] : List ℚ) ≠ [5] ∧ readContainerWidth (none : Option ℚ) = 0 ∧
    (∀ w ∈ ([5] : List ℚ), 0 < w) ∧
    computeVisibleForCurrentWidth none [5] = 0 :=
  ⟨by decide, rfl, by decide,
    (fit_zero_container_amended none [5]).2.2 rfl (by decide)⟩

/-- C7: for a fixed widths sequence of non-negative widths, a larger
container width never yields a smaller VisibleCount. -/
theorem fit_monotone_in_width (ws : List ℚ) (W1 W2 : ℚ)
    (hnn : ∀ w ∈ ws, 0 ≤ w) (h : W1 ≤ W2) :
    computeVisibleForCurrentWidth (some W1) ws ≤
      computeVisibleForCurrentWidth (some W2) ws := by
  unfold computeVisibleForCurrentWidth
  rw [readContainerWidth_some, readContainerWidth_some]
  exact fitLoop_mono W1 W2 h ws 0

theorem fit_monotone_in_width_witness :
    (∀ w ∈ ([50, 30, 40] : List ℚ), 0 ≤ w) ∧ (60 : ℚ) ≤ 90 ∧
    computeVisibleForCurrentWidth (some 60) [50, 30, 40] ≤
      computeVisibleForCurrentWidth (some 90) [50, 30, 40] :=
  ⟨by decide, by norm_num,
    fit_monotone_in_width [50, 30, 40] 60 90 (by decide) (by norm_num)⟩

/-- A raw JavaScript number-array entry as the fit loop can encounter it:
an actual number, NaN (e.g. from a bogus measurement), or undefined (an
array hole or an out-of-range read). -/
inductive JsNum where
  | num (q : ℚ)
  | nan
  | undef

/-- JavaScript falsy-to-zero coercion on a raw array entry: NaN and
undefined are falsy and coerce to 0; the number 0 stays 0; any other
number is returned unchanged. -/
def jsOr0 : JsNum → ℚ
  | JsNum.num q => if q = 0 then 0 else q
  | JsNum.nan => 0
  | JsNum.undef => 0

/-- The loop of computeVisibleForCurrentWidth read over the raw array
contents, coercing each entry before the admission test, exactly as the
source does with its falsy-to-zero coercion. -/
def fitLoopJs (W : ℚ) : List JsNum → ℚ → ℕ
  | [], _ => 0
  | v :: rest, sum =>
    if sum + jsOr0 v ≤ W then fitLoopJs W rest (sum + jsOr0 v) + 1 else 0

theorem orZero_jsOr0 (v : JsNum) : orZero (jsOr0 v) = jsOr0 v := by
  cases v with
  | num q => by_cases h : q = 0 <;> simp [jsOr0, orZero, h]
  | nan => simp [jsOr0, orZero]
  | undef => simp [jsOr0, orZero]

theorem fitLoopJs_eq_map (W : ℚ) (vs : List JsNum) (sum : ℚ) :
    fitLoopJs W vs sum = fitLoop W (vs.map jsOr0) sum := by
  induction vs generalizing sum with
  | nil => rfl
  | cons v rest ih =>
    show (if sum + jsOr0 v ≤ W then fitLoopJs W rest (sum + jsOr0 v) + 1 else 0) = _
    rw [List.map_cons, fitLoop_cons]
    split
    · rw [ih]
    · rfl

/-- C9: the fit computation is total over raw array contents: every entry
is coerced to a number first (NaN and missing entries become width 0, via
the same falsy-to-zero coercion the admission test uses), the scan stays
within the array (the count never exceeds the array length), and the
result agrees with the numeric fit loop on the coerced widths. -/
theorem fit_js_total_coerce (vs : List JsNum) (W : ℚ) :
    fitLoopJs W vs 0 = fitLoop W (vs.map jsOr0) 0 ∧
    fitLoopJs W vs 0 ≤ vs.length ∧
    jsOr0 JsNum.nan = 0 ∧ jsOr0 JsNum.undef = 0 := by
  refine ⟨fitLoopJs_eq_map W vs 0, ?_, rfl, rfl⟩
  rw [fitLoopJs_eq_map W vs 0]
  have := fitLoop_le_length W (vs.map jsOr0) 0
  simpa using this

/-- The width-collection loop of measureAllItems (source lines 80-94):
for each index of the item list, read the element held by the ref at that
index; a missing ref or a ref without an element records width 0, a
present element records its bounding-rect width. elWidth i is the
environment's answer for index i (none when no element is there). -/
def measureWidths {α : Type} (items : List α) (elWidth : ℕ → Option ℚ) : List ℚ :=
  (List.range items.length).map fun i => (elWidth i).getD 0

theorem measureWidths_length {α : Type} (items : List α) (elWidth : ℕ → Option ℚ) :
    (measureWidths items elWidth).length = items.length := by
  simp [measureWidths]

/-- C8: the measurement loop is total (it never fails on a missing
element) and its output is aligned 1:1 by index with the item list: the
lengths agree, a missing element records width 0 at its own index, and a
present element records its measured width at its own index. -/
theorem measure_total_aligned {α : Type} (items : List α) (elWidth : ℕ → Option ℚ) :
    (measureWidths items elWidth).length = items.length ∧
    (∀ i, i < items.length → elWidth i = none →
      (measureWidths items elWidth)[i]? = some 0) ∧
    (∀ i (w : ℚ), i < items.length → elWidth i = some w →
      (measureWidths items elWidth)[i]? = some w) := by
  refine ⟨measureWidths_length items elWidth, ?_, ?_⟩
  · intro i hi hnone
    simp [measureWidths, List.getElem?_map, List.getElem?_range, hi, hnone]
  · intro i w hi hsome
    simp [measureWidths, List.getElem?_map, List.getElem?_range, hi, hsome]

theorem measure_total_aligned_witness :
    1 < 2 ∧ (fun i => if i = 0 then (some 12 : Option ℚ) else none) 1 = none ∧
    (measureWidths ([0, 1] : List ℕ)
      (fun i => if i = 0 then (some 12 : Option ℚ) else none))[1]? = some 0 :=
  ⟨by decide, by simp,
    (measure_total_aligned ([0, 1] : List ℕ)
      (fun i => if i = 0 then (some 12 : Option ℚ) else none)).2.1 1
      (by decide) (by simp)⟩

/-- The four possible shapes of the component's render output: the
fallback placeholder when no renderer was provided, the hidden
measurement pass over the full item list, the empty output, and the
visible spans for a prefix of the items. -/
inductive RenderOut (β : Type) where
  | noRenderer
  | hiddenMeasure (spans : List β)
  | empty
  | visible (spans : List β)
deriving DecidableEq

/-- The render method (source lines 125-152): no renderer yields the
fixed placeholder; an unmeasured state renders every item, with its
index, into the hidden measurement container; a measured state with
visibleCount 0 renders nothing; otherwise the items sliced to
visibleCount are rendered, each with its index in the sliced list. -/
def render {α β : Type} (renderer : Option (α → ℕ → β)) (items : List α)
    (measured : Bool) (visibleCount : ℕ) : RenderOut β :=
  match renderer with
  | none => RenderOut.noRenderer
  | some r =>
    if measured = false then
      RenderOut.hiddenMeasure (items.enum.map fun p => r p.2 p.1)
    else if visibleCount = 0 then
      RenderOut.empty
    else
      RenderOut.visible (((items.take visibleCount).enum).map fun p => r p.2 p.1)

theorem enumFrom_take_comm {α : Type} :
    ∀ (l : List α) (n k : ℕ), (l.take k).enumFrom n = (l.enumFrom n).take k := by
  intro l
  induction l with
  | nil => intro n k; simp
  | cons a l ih =>
    intro n k
    cases k with
    | zero => simp
    | succ k => simp [List.enumFrom_cons, ih]

theorem enum_take_comm {α : Type} (l : List α) (k : ℕ) :
    (l.take k).enum = l.enum.take k := by
  simpa [List.enum] using enumFrom_take_comm l 0 k

/-- C6: the render output is a four-way case split on the state. With no
renderer the fixed placeholder is emitted; unmeasured states emit the
hidden full-sequence measurement render (and nothing visible); measured
states with visibleCount 0 emit empty output; measured states with
positive visibleCount render exactly the first visibleCount items in
original order, and each item's index as seen by the renderer is its
original index in the full sequence (taking a prefix commutes with
enumeration). -/
theorem render_dispatch_cases {α β : Type} (r : α → ℕ → β) (items : List α)
    (m : Bool) (vc : ℕ) :
    render (none : Option (α → ℕ → β)) items m vc = RenderOut.noRenderer ∧
    render (some r) items false vc =
      RenderOut.hiddenMeasure (items.enum.map fun p => r p.2 p.1) ∧
    render (some r) items true 0 = RenderOut.empty ∧
    (0 < vc → render (some r) items true vc =
      RenderOut.visible ((items.enum.take vc).map fun p => r p.2 p.1)) := by
  refine ⟨rfl, rfl, rfl, ?_⟩
  intro hvc
  have hne : ¬ vc = 0 := by omega
  simp [render, hne, enum_take_comm]

theorem render_dispatch_cases_witness :
    0 < 2 ∧ render (some (fun a i => a + i)) ([10, 20, 30] : List ℕ) true 2 =
      RenderOut.visible [10, 21] :=
  ⟨by decide,
    (render_dispatch_cases (fun a i => a + i) ([10, 20, 30] : List ℕ) true 2).2.2.2
      (by decide)⟩

/-- The mutable fields of one component instance, together with the
bookkeeping the event model needs: pendingMeasures counts measureAllItems
invocations whose await of updateComplete has not yet resumed, and
fuStage records how far the (at most one) firstUpdated call has
progressed: 0 = not called, 1 = awaiting its measureAllItems, 2 = its
continuation (the observer setup) has run. -/
structure CState where
  items : List ℕ
  measuredWidths : List ℚ
  measured : Bool
  visibleCount : ℕ
  resizeObserver : Bool
  resizeTimeout : Bool
  pendingMeasures : ℕ
  fuStage : ℕ

/-- Field defaults of the class: empty items, no measurements, count 0,
no observer, no pending timer, firstUpdated not yet run. -/
def initState : CState :=
  { items := [], measuredWidths := [], measured := false, visibleCount := 0,
    resizeObserver := false, resizeTimeout := false, pendingMeasures := 0,
    fuStage := 0 }

/-- computeVisibleForCurrentWidth as a state update: read the parent's
width, run the fit loop over the current measuredWidths, and store the
count only when it differs from the stored visibleCount (storing an equal
count would be a no-op anyway). pw is the parent's clientWidth at call
time, none when the element has no parent. -/
def computeVisible (pw : Option ℚ) (s : CState) : CState :=
  if computeVisibleForCurrentWidth pw s.measuredWidths ≠ s.visibleCount then
    { s with visibleCount := computeVisibleForCurrentWidth pw s.measuredWidths }
  else s

/-- The body of measureAllItems after its await of updateComplete
resumes: collect one width per current item from the refs (env gives the
element width at each index, none for a missing element), store the
array, flip measured to true, and recompute the visible count. There is
no connected/disposed guard in the source, so this body runs the same
way when the component was torn down during the await. -/
def measureBody (env : ℕ → Option ℚ) (pw : Option ℚ) (s : CState) : CState :=
  computeVisible pw
    { s with measuredWidths := measureWidths s.items env, measured := true }

/-- The observer setup at the end of firstUpdated: when no ResizeObserver
exists yet, create one and observe the parent (or the element itself).
After it runs an observer exists either way. -/
def observeIfAbsent (s : CState) : CState :=
  if s.resizeObserver then s else { s with resizeObserver := true }

/-- The events that drive one component instance.
firstUpdStart: firstUpdated begins (ensureRefs, then it calls
measureAllItems, whose body is now pending behind the await).
firstUpdRest: the await inside firstUpdated resolves: the measureAllItems
body runs, then the ResizeObserver is created if none exists. env and pw
are what the DOM answers at that moment.
itemsChanged: the items property was replaced; updated() sets measured to
false and schedules measureAllItems behind updateComplete.
measureResume: a pending measureAllItems body (scheduled by
itemsChanged) resumes with the DOM's current answers.
resizeNotify: the ResizeObserver fires (only possible while an observer
exists): onContainerResize clears any pending timeout and schedules a new
50 ms one.
timerFire: a still-pending timeout callback runs: it recomputes the
visible count from the width read at fire time and clears the handle.
disconnect: disconnectedCallback: disconnect and null the observer and
clear any pending timeout. Nothing cancels a pending measureAllItems. -/
inductive Ev where
  | firstUpdStart
  | firstUpdRest (env : ℕ → Option ℚ) (pw : Option ℚ)
  | itemsChanged (newItems : List ℕ)
  | measureResume (env : ℕ → Option ℚ) (pw : Option ℚ)
  | resizeNotify
  | timerFire (pw : Option ℚ)
  | disconnect

/-- One event handled by the component, each branch transcribing the
corresponding handler in the source. -/
def step (s : CState) : Ev → CState
  | Ev.firstUpdStart =>
    if s.fuStage = 0 then
      { s with fuStage := 1, pendingMeasures := s.pendingMeasures + 1 }
    else s
  | Ev.firstUpdRest env pw =>
    if s.fuStage = 1 then
      if 0 < s.pendingMeasures then
        observeIfAbsent (measureBody env pw
          { s with pendingMeasures := s.pendingMeasures - 1, fuStage := 2 })
      else s
    else s
  | Ev.itemsChanged newItems =>
    { s with items := newItems, measured := false,
             pendingMeasures := s.pendingMeasures + 1 }
  | Ev.measureResume env pw =>
    if 0 < s.pendingMeasures then
      measureBody env pw { s with pendingMeasures := s.pendingMeasures - 1 }
    else s
  | Ev.resizeNotify =>
    if s.resizeObserver then { s with resizeTimeout := true } else s
  | Ev.timerFire pw =>
    if s.resizeTimeout then { computeVisible pw s with resizeTimeout := false }
    else s
  | Ev.disconnect =>
    { s with resizeObserver := false, resizeTimeout := false }

/-- Run a list of events from a state. -/
def run (s : CState) : List Ev → CState
  | [] => s
  | e :: evs => run (step s e) evs

/-- The states one component instance can be in: the initial state and
anything an event leads to from a reachable state. -/
inductive Reachable : CState → Prop where
  | init : Reachable initState
  | next {s : CState} : Reachable s → ∀ e, Reachable (step s e)

theorem computeVisibleForCurrentWidth_le (pw : Option ℚ) (ws : List ℚ) :
    computeVisibleForCurrentWidth pw ws ≤ ws.length :=
  fitLoop_le_length _ _ _

@[simp] theorem computeVisible_visibleCount (pw : Option ℚ) (s : CState) :
    (computeVisible pw s).visibleCount =
      computeVisibleForCurrentWidth pw s.measuredWidths := by
  unfold computeVisible
  split
  · rfl
  · rename_i h
    exact (not_ne_iff.mp h).symm

@[simp] theorem computeVisible_measuredWidths (pw : Option ℚ) (s : CState) :
    (computeVisible pw s).measuredWidths = s.measuredWidths := by
  unfold computeVisible; split <;> rfl

@[simp] theorem computeVisible_measured (pw : Option ℚ) (s : CState) :
    (computeVisible pw s).measured = s.measured := by
  unfold computeVisible; split <;> rfl

@[simp] theorem computeVisible_items (pw : Option ℚ) (s : CState) :
    (computeVisible pw s).items = s.items := by
  unfold computeVisible; split <;> rfl

@[simp] theorem computeVisible_resizeObserver (pw : Option ℚ) (s : CState) :
    (computeVisible pw s).resizeObserver = s.resizeObserver := by
  unfold computeVisible; split <;> rfl

@[simp] theorem computeVisible_resizeTimeout (pw : Option ℚ) (s : CState) :
    (computeVisible pw s).resizeTimeout = s.resizeTimeout := by
  unfold computeVisible; split <;> rfl

@[simp] theorem computeVisible_pendingMeasures (pw : Option ℚ) (s : CState) :
    (computeVisible pw s).pendingMeasures = s.pendingMeasures := by
  unfold computeVisible; split <;> rfl

@[simp] theorem computeVisible_fuStage (pw : Option ℚ) (s : CState) :
    (computeVisible pw s).fuStage = s.fuStage := by
  unfold computeVisible; split <;> rfl

@[simp] theorem measureBody_measuredWidths (env : ℕ → Option ℚ) (pw : Option ℚ)
    (s : CState) :
    (measureBody env pw s).measuredWidths = measureWidths s.items env := by
  unfold measureBody; simp

@[simp] theorem measureBody_measured (env : ℕ → Option ℚ) (pw : Option ℚ)
    (s : CState) : (measureBody env pw s).measured = true := by
  unfold measureBody; simp

@[simp] theorem measureBody_items (env : ℕ → Option ℚ) (pw : Option ℚ)
    (s : CState) : (measureBody env pw s).items = s.items := by
  unfold measureBody; simp

@[simp] theorem measureBody_visibleCount (env : ℕ → Option ℚ) (pw : Option ℚ)
    (s : CState) :
    (measureBody env pw s).visibleCount =
      computeVisibleForCurrentWidth pw (measureWidths s.items env) := by
  unfold measureBody; simp

@[simp] theorem measureBody_resizeObserver (env : ℕ → Option ℚ) (pw : Option ℚ)
    (s : CState) :
    (measureBody env pw s).resizeObserver = s.resizeObserver := by
  unfold measureBody; simp

@[simp] theorem measureBody_resizeTimeout (env : ℕ → Option ℚ) (pw : Option ℚ)
    (s : CState) :
    (measureBody env pw s).resizeTimeout = s.resizeTimeout := by
  unfold measureBody; simp

@[simp] theorem measureBody_pendingMeasures (env : ℕ → Option ℚ) (pw : Option ℚ)
    (s : CState) :
    (measureBody env pw s).pendingMeasures = s.pendingMeasures := by
  unfold measureBody; simp

@[simp] theorem measureBody_fuStage (env : ℕ → Option ℚ) (pw : Option ℚ)
    (s : CState) : (measureBody env pw s).fuStage = s.fuStage := by
  unfold measureBody; simp

@[simp] theorem observeIfAbsent_resizeObserver (s : CState) :
    (observeIfAbsent s).resizeObserver = true := by
  unfold observeIfAbsent; split <;> simp_all

@[simp] theorem observeIfAbsent_measuredWidths (s : CState) :
    (observeIfAbsent s).measuredWidths = s.measuredWidths := by
  unfold observeIfAbsent; split <;> rfl

@[simp] theorem observeIfAbsent_measured (s : CState) :
    (observeIfAbsent s).measured = s.measured := by
  unfold observeIfAbsent; split <;> rfl

@[simp] theorem observeIfAbsent_items (s : CState) :
    (observeIfAbsent s).items = s.items := by
  unfold observeIfAbsent; split <;> rfl

@[simp] theorem observeIfAbsent_visibleCount (s : CState) :
    (observeIfAbsent s).visibleCount = s.visibleCount := by
  unfold observeIfAbsent; split <;> rfl

@[simp] theorem observeIfAbsent_resizeTimeout (s : CState) :
    (observeIfAbsent s).resizeTimeout = s.resizeTimeout := by
  unfold observeIfAbsent; split <;> rfl

@[simp] theorem observeIfAbsent_pendingMeasures (s : CState) :
    (observeIfAbsent s).pendingMeasures = s.pendingMeasures := by
  unfold observeIfAbsent; split <;> rfl

@[simp] theorem observeIfAbsent_fuStage (s : CState) :
    (observeIfAbsent s).fuStage = s.fuStage := by
  unfold observeIfAbsent; split <;> rfl

/-- C3 (code bug): the source has no disposed-guard in measureAllItems,
so a measurement whose await of updateComplete resolves after
disconnectedCallback still writes measuredWidths, measured and
visibleCount. Before the resume (items replaced, then teardown) nothing
is measured; the resume then mutates all three fields post-teardown. -/
theorem teardown_measurement_writes_bug :
    (run initState [Ev.itemsChanged [3], Ev.disconnect]).measured = false ∧
    (run initState [Ev.itemsChanged [3], Ev.disconnect]).measuredWidths = [] ∧
    (run initState [Ev.itemsChanged [3], Ev.disconnect]).visibleCount = 0 ∧
    (run initState [Ev.itemsChanged [3], Ev.disconnect,
      Ev.measureResume (fun _ => some 10) (some 100)]).measured = true ∧
    (run initState [Ev.itemsChanged [3], Ev.disconnect,
      Ev.measureResume (fun _ => some 10) (some 100)]).measuredWidths = [10] ∧
    (run initState [Ev.itemsChanged [3], Ev.disconnect,
      Ev.measureResume (fun _ => some 10) (some 100)]).visibleCount = 1 := by
  refine ⟨rfl, rfl, rfl, ?_, ?_, ?_⟩ <;>
    norm_num [run, step, initState, measureBody, computeVisible, measureWidths,
      computeVisibleForCurrentWidth, readContainerWidth, fitLoop, orZero,
      List.range, List.range.loop]

/-- C4 counterexample: replacing a measured five-wide-enough item list by
a shorter one leaves the stale visibleCount in place until the scheduled
re-measure resumes, so visibleCount exceeds the current items length in a
reachable state. -/
theorem visibleCount_exceeds_items_counterexample :
    (run initState [Ev.itemsChanged [1, 2],
      Ev.measureResume (fun _ => some 0) (some 0),
      Ev.itemsChanged [5]]).items.length <
    (run initState [Ev.itemsChanged [1, 2],
      Ev.measureResume (fun _ => some 0) (some 0),
      Ev.itemsChanged [5]]).visibleCount := by
  norm_num [run, step, initState, measureBody, computeVisible, measureWidths,
    computeVisibleForCurrentWidth, readContainerWidth, fitLoop, orZero,
    List.range, List.range.loop]

theorem invC4_step (s : CState) (e : Ev)
    (h1 : s.visibleCount ≤ s.measuredWidths.length)
    (h2 : s.measured = true → s.measuredWidths.length = s.items.length) :
    (step s e).visibleCount ≤ (step s e).measuredWidths.length ∧
    ((step s e).measured = true →
      (step s e).measuredWidths.length = (step s e).items.length) := by
  cases e with
  | firstUpdStart =>
    simp only [step]
    split <;> exact ⟨h1, h2⟩
  | firstUpdRest env pw =>
    simp only [step]
    split
    · split
      · exact ⟨by simp [computeVisibleForCurrentWidth_le],
          by simp [measureWidths_length]⟩
      · exact ⟨h1, h2⟩
    · exact ⟨h1, h2⟩
  | itemsChanged newItems =>
    simp only [step]
    exact ⟨h1, by intro hm; simp at hm⟩
  | measureResume env pw =>
    simp only [step]
    split
    · exact ⟨by simp [computeVisibleForCurrentWidth_le],
        by simp [measureWidths_length]⟩
    · exact ⟨h1, h2⟩
  | resizeNotify =>
    simp only [step]
    split <;> exact ⟨h1, h2⟩
  | timerFire pw =>
    simp only [step]
    split
    · exact ⟨by simp [computeVisibleForCurrentWidth_le], by simpa using h2⟩
    · exact ⟨h1, h2⟩
  | disconnect =>
    simp only [step]
    exact ⟨h1, h2⟩

/-- C4 amended: in every reachable state visibleCount is at most the
measuredWidths length; and whenever measured is true, measuredWidths has
exactly items.length entries and visibleCount is at most items.length.
When measured is false (in particular right after the item list was
replaced, before the scheduled re-measure resumes) visibleCount can
exceed the new item list's length. -/
theorem state_invariant_amended (s : CState) (hs : Reachable s) :
    s.visibleCount ≤ s.measuredWidths.length ∧
    (s.measured = true →
      s.measuredWidths.length = s.items.length ∧
      s.visibleCount ≤ s.items.length) := by
  have main : s.visibleCount ≤ s.measuredWidths.length ∧
      (s.measured = true → s.measuredWidths.length = s.items.length) := by
    induction hs with
    | init => exact ⟨Nat.le_refl 0, by intro h; simp [initState] at h⟩
    | next hr e ih => exact invC4_step _ e ih.1 ih.2
  refine ⟨main.1, fun hm => ⟨main.2 hm, ?_⟩⟩
  calc s.visibleCount ≤ s.measuredWidths.length := main.1
    _ = s.items.length := main.2 hm

theorem state_invariant_amended_witness :
    (step (step initState (Ev.itemsChanged [4]))
        (Ev.measureResume (fun _ => some 3) (some 3))).visibleCount ≤
      (step (step initState (Ev.itemsChanged [4]))
        (Ev.measureResume (fun _ => some 3) (some 3))).measuredWidths.length ∧
    ((step (step initState (Ev.itemsChanged [4]))
        (Ev.measureResume (fun _ => some 3) (some 3))).measured = true →
      (step (step initState (Ev.itemsChanged [4]))
          (Ev.measureResume (fun _ => some 3) (some 3))).measuredWidths.length =
        (step (step initState (Ev.itemsChanged [4]))
          (Ev.measureResume (fun _ => some 3) (some 3))).items.length ∧
      (step (step initState (Ev.itemsChanged [4]))
          (Ev.measureResume (fun _ => some 3) (some 3))).visibleCount ≤
        (step (step initState (Ev.itemsChanged [4]))
          (Ev.measureResume (fun _ => some 3) (some 3))).items.length) :=
  state_invariant_amended _
    (Reachable.next (Reachable.next Reachable.init (Ev.itemsChanged [4]))
      (Ev.measureResume (fun _ => some 3) (some 3)))

/-- C10 counterexample: firstUpdated creates the observer only after
awaiting measureAllItems, with no disposed-guard. When teardown happens
during that await, the resumed continuation creates the subscription
after disconnectedCallback ran, and a subsequent size-change notification
is received and schedules a debounce timer on the torn-down instance. -/
theorem observer_recreated_after_teardown :
    (run initState [Ev.firstUpdStart, Ev.disconnect,
      Ev.firstUpdRest (fun _ => none) none]).resizeObserver = true ∧
    (run initState [Ev.firstUpdStart, Ev.disconnect,
      Ev.firstUpdRest (fun _ => none) none,
      Ev.resizeNotify]).resizeTimeout = true := by
  constructor <;> simp [run, step, initState]

theorem invDone_step (s : CState) (e : Ev) (hfu : s.fuStage = 2)
    (hobs : s.resizeObserver = false) (ht : s.resizeTimeout = false) :
    (step s e).fuStage = 2 ∧ (step s e).resizeObserver = false ∧
    (step s e).resizeTimeout = false := by
  cases e with
  | firstUpdStart =>
    simp only [step]
    split
    · simp_all
    · exact ⟨hfu, hobs, ht⟩
  | firstUpdRest env pw =>
    simp only [step]
    split
    · simp_all
    · exact ⟨hfu, hobs, ht⟩
  | itemsChanged newItems =>
    simp only [step]
    exact ⟨hfu, hobs, ht⟩
  | measureResume env pw =>
    simp only [step]
    split
    · simp_all
    · exact ⟨hfu, hobs, ht⟩
  | resizeNotify =>
    simp only [step]
    split
    · simp_all
    · exact ⟨hfu, hobs, ht⟩
  | timerFire pw =>
    simp only [step]
    split
    · simp_all
    · exact ⟨hfu, hobs, ht⟩
  | disconnect =>
    simp_all [step]

theorem invDone_run (s : CState) (evs : List Ev) (hfu : s.fuStage = 2)
    (hobs : s.resizeObserver = false) (ht : s.resizeTimeout = false) :
    (run s evs).fuStage = 2 ∧ (run s evs).resizeObserver = false ∧
    (run s evs).resizeTimeout = false := by
  induction evs generalizing s with
  | nil => exact ⟨hfu, hobs, ht⟩
  | cons e evs ih =>
    have h := invDone_step s e hfu hobs ht
    simpa only [run] using ih (step s e) h.1 h.2.1 h.2.2

/-- C10 amended: the subscription is created only by the (at most one)
firstUpdated flow. Provided that flow has fully completed (the observer
setup after its awaited measurement has run) before disconnectedCallback,
then after disconnectedCallback disconnects and nulls the observer no
later event re-creates the subscription or schedules a timer, so the
instance never again receives or reacts to size-change notifications. If
teardown instead happens while firstUpdated is still awaiting its
measurement, the resumed continuation does create the subscription after
teardown. -/
theorem observer_not_recreated_amended (s : CState) (hfu : s.fuStage = 2)
    (evs : List Ev) :
    (run (step s Ev.disconnect) evs).resizeObserver = false ∧
    (run (step s Ev.disconnect) evs).resizeTimeout = false := by
  have hd : (step s Ev.disconnect).fuStage = 2 := by simpa [step] using hfu
  have ho : (step s Ev.disconnect).resizeObserver = false := by simp [step]
  have ht : (step s Ev.disconnect).resizeTimeout = false := by simp [step]
  exact ⟨(invDone_run _ evs hd ho ht).2.1, (invDone_run _ evs hd ho ht).2.2⟩

theorem observer_not_recreated_amended_witness :
    (run initState [Ev.firstUpdStart,
      Ev.firstUpdRest (fun _ => none) none]).fuStage = 2 ∧
    (run (step (run initState [Ev.firstUpdStart,
        Ev.firstUpdRest (fun _ => none) none]) Ev.disconnect)
      [Ev.resizeNotify]).resizeObserver = false ∧
    (run (step (run initState [Ev.firstUpdStart,
        Ev.firstUpdRest (fun _ => none) none]) Ev.disconnect)
      [Ev.resizeNotify]).resizeTimeout = false :=
  ⟨by simp [run, step, initState],
    observer_not_recreated_amended _ (by simp [run, step, initState])
      [Ev.resizeNotify]⟩

/-- The trailing-edge debounce of onContainerResize (source lines 96-103)
as a timed model. The state is the fire time of the pending setTimeout
callback, if any (now + 50 when scheduled at time now). Events are the
resize-notification timestamps in ascending order; a pending timer whose
fire time is not later than the next notification fires first (and its
fire time is recorded), otherwise the notification clears it; either way
the notification schedules a new timer 50 ms after itself. A timer still
pending after the last notification fires. The result is the list of
times at which the debounced fit recomputation runs. -/
def debounceRun : Option ℕ → List ℕ → List ℕ
  | none, [] => []
  | some f, [] => [f]
  | none, t :: ts => debounceRun (some (t + 50)) ts
  | some f, t :: ts =>
    if f ≤ t then f :: debounceRun (some (t + 50)) ts
    else debounceRun (some (t + 50)) ts

/-- Each debounced recomputation reads the parent width fresh at its fire
time (pw gives the parent's clientWidth as a function of time) and runs
the fit computation on the cached widths: the pairs (fire time, computed
visible count) produced by a notification burst. -/
def debounceRecomputes (pw : ℕ → Option ℚ) (ws : List ℚ) (ts : List ℕ) :
    List (ℕ × ℕ) :=
  (debounceRun none ts).map fun t =>
    (t, computeVisibleForCurrentWidth (pw t) ws)

theorem debounceRun_burst (t : ℕ) (ts : List ℕ)
    (h : List.Chain (fun a b => a ≤ b ∧ b < a + 50) t ts) :
    debounceRun (some (t + 50)) ts = [ts.getLastD t + 50] := by
  induction ts generalizing t with
  | nil => simp [debounceRun, List.getLastD]
  | cons u us ih =>
    rw [List.chain_cons] at h
    have hlt : ¬ (t + 50 ≤ u) := by omega
    have hrec : debounceRun (some (t + 50)) (u :: us) =
        debounceRun (some (u + 50)) us := by
      simp [debounceRun, hlt]
    rw [hrec, ih u h.2, List.getLastD_cons]

/-- C5: for a burst of one or more resize notifications in which each
notification arrives before the 50 ms quiet window of the previous one
elapses, exactly one fit recomputation runs, it runs 50 ms after the last
notification of the burst, and it uses the container width read at that
moment. -/
theorem debounce_single_recompute (pw : ℕ → Option ℚ) (ws : List ℚ)
    (t : ℕ) (ts : List ℕ)
    (h : List.Chain (fun a b => a ≤ b ∧ b < a + 50) t ts) :
    debounceRecomputes pw ws (t :: ts) =
      [(ts.getLastD t + 50,
        computeVisibleForCurrentWidth (pw (ts.getLastD t + 50)) ws)] := by
  unfold debounceRecomputes
  rw [show debounceRun none (t :: ts) = debounceRun (some (t + 50)) ts from rfl,
    debounceRun_burst t ts h]
  rfl

theorem debounce_single_recompute_witness :
    List.Chain (fun a b => a ≤ b ∧ b < a + 50) 0 [20, 40] ∧
    debounceRecomputes (fun _ => some 90) [30, 40] [0, 20, 40] = [(90, 2)] := by
  have hchain : List.Chain (fun a b => a ≤ b ∧ b < a + 50) 0 [20, 40] :=
    List.Chain.cons (by norm_num)
      (List.Chain.cons (by norm_num) List.Chain.nil)
  constructor
  · exact hchain
  · rw [debounce_single_recompute (fun _ => some 90) [30, 40] 0 [20, 40]
      hchain]
    norm_num [computeVisibleForCurrentWidth, readContainerWidth, fitLoop,
      orZero, List.getLastD]

end OverflowWc
